import Mathlib

/-!
Verification of the flow-field visualization plugin
(`client/src/modules/visualizations/plugins/flow-field/index.ts`).

The plugin's numeric code is embedded shallowly:

* the `SimplexNoise` class (seeded table construction and `noise3D`) is
  modelled over `ℚ` — all of its arithmetic is exact rational arithmetic
  (floors, additions, multiplications, divisions by constants), so the
  rational model mirrors the source expression for expression; table reads
  are modelled with `Option` so that an out-of-bounds read is observable;
* the audio-feature block of `render` (band sums, exponential smoothing,
  beat detection with cooldown) is modelled over an arbitrary linearly
  ordered field, instantiated at `ℚ` for executable checks and at `ℝ`
  inside the full `render` model;
* `getCurlNoise` and the particle part of `render` are modelled over `ℝ`
  (they use `Math.sqrt`, `Math.cos`, `Math.sin`); `Math.random()` is
  modelled as an ambient stream `ρ : ℕ → ℝ` of values in `[0,1)` together
  with a cursor that every consumer advances, exactly in source call order;
  canvas drawing calls (which read but never write simulator state) are not
  modelled.
-/

set_option maxRecDepth 8000

namespace FlowField

/-- Truncation toward zero, as used by the JavaScript `%` operator. -/
def jsTrunc (q : ℚ) : ℤ := if 0 ≤ q then ⌊q⌋ else ⌈q⌉

/-- JavaScript remainder `a % b` for `b ≠ 0`: `a - b * trunc (a / b)`
(the result has the sign of the dividend). -/
def jsMod (a b : ℚ) : ℚ := a - b * jsTrunc (a / b)

/-- One step of the seed stream used by the `SimplexNoise` constructor:
`seed = (seed * 16807) % 2147483647; seed = seed / 2147483647`. -/
def lcgNext (seed : ℚ) : ℚ := jsMod (seed * 16807) 2147483647 / 2147483647

/-- First constructor loop: `for (i = 0..255) { p[i] = floor(seed*256); advance seed }`.
Returns the filled array together with the seed value after the loop. -/
def buildP : ℕ → ℚ → List ℤ × ℚ
  | 0, seed => ([], seed)
  | n + 1, seed =>
      let e : ℤ := ⌊seed * 256⌋
      let r := buildP n (lcgNext seed)
      (e :: r.1, r.2)

/-- One iteration of the second constructor loop at index `i`:
`n = floor((i+1)*seed); advance seed; swap p[i] and p[n % 256]`.
The source reads `p[i]` and `p[n % 256]` before either assignment. -/
def shuffleStep (pr : List ℤ × ℚ) (i : ℕ) : List ℤ × ℚ :=
  let n : ℤ := ⌊(i + 1 : ℚ) * pr.2⌋
  let j : ℕ := (n.tmod 256).toNat
  let t := pr.1.getD i 0
  let p1 := pr.1.set i (pr.1.getD j 0)
  let p2 := p1.set j t
  (p2, lcgNext pr.2)

/-- Second constructor loop, `for (i = 255; i > 0; i--)`: called with fuel 255
it performs `shuffleStep` at `i = 255, 254, …, 1`. -/
def shuffleLoop : ℕ → List ℤ × ℚ → List ℤ × ℚ
  | 0, pr => pr
  | n + 1, pr => shuffleLoop n (shuffleStep pr (n + 1))

/-- The 256-entry table `p` built by the two constructor loops from a seed. -/
def permTable (seed : ℚ) : List ℤ :=
  (shuffleLoop 255 (buildP 256 seed)).1

/-- The fixed table of 12 gradient directions (`grad3` in the source). -/
def grad3 : List (ℤ × ℤ × ℤ) :=
  [(1,1,0), (-1,1,0), (1,-1,0), (-1,-1,0),
   (1,0,1), (-1,0,1), (1,0,-1), (-1,0,-1),
   (0,1,1), (0,-1,1), (0,1,-1), (0,-1,-1)]

/-- State of a constructed `SimplexNoise` instance: the 512-entry mirrored
permutation lookup and the 512-entry gradient lookup. -/
structure SimplexNoise where
  perm : List ℤ
  gradP : List (ℤ × ℤ × ℤ)
  deriving DecidableEq

/-- The `SimplexNoise` constructor: builds `p` from the seed, then
`perm[i] = p[i & 255]` and `gradP[i] = grad3[perm[i] % 12]` for `i < 512`.
For the seeds actually supplied (`Math.random() ∈ [0,1)`) every index is in
range; the `getD` defaults are junk values that are never read under the
range hypothesis established below. -/
def SimplexNoise.ofSeed (seed : ℚ) : SimplexNoise :=
  let p := permTable seed
  let perm := (List.range 512).map (fun i => p.getD (i % 256) 0)
  { perm := perm
  , gradP := perm.map (fun v => grad3.getD (v.tmod 12).toNat (0, 0, 0)) }

/-- List read at a (possibly negative) integer index, `none` when out of
bounds — a JavaScript `undefined` array read. -/
def getAt? (l : List α) (i : ℤ) : Option α :=
  if 0 ≤ i then l.get? i.toNat else none

/-- Function `dot3` from the source. -/
def dot3 (g : ℤ × ℤ × ℤ) (x y z : ℚ) : ℚ :=
  (g.1 : ℚ) * x + (g.2.1 : ℚ) * y + (g.2.2 : ℚ) * z

/-- One corner contribution of `noise3D`: radial falloff `0.6 - d²`,
clamped to zero when negative, otherwise `(t*t)*(t*t)*dot3(g, d)` with the
gradient fetched through `gradP[ii+di + perm[jj+dj + perm[kk+dk]]]`. -/
def corner (S : SimplexNoise) (ii jj kk di dj dk : ℤ) (xc yc zc : ℚ) : Option ℚ :=
  let t : ℚ := 3/5 - xc * xc - yc * yc - zc * zc
  if t < 0 then some 0 else
    match getAt? S.perm (kk + dk) with
    | none => none
    | some a =>
      match getAt? S.perm (jj + dj + a) with
      | none => none
      | some b =>
        match getAt? S.gradP (ii + di + b) with
        | none => none
        | some g => some ((t * t) * (t * t) * dot3 g xc yc zc)

/-- The simplex choice of `noise3D` (source lines 106–117): from the
fractional position in the containing cell, the corner offsets
`(i1, j1, k1, i2, j2, k2)`, each 0 or 1. -/
def simplexOffsets (x0 y0 z0 : ℚ) : ℤ × ℤ × ℤ × ℤ × ℤ × ℤ :=
  if y0 ≤ x0 then
    if z0 ≤ y0 then (1, 0, 0, 1, 1, 0)
    else if z0 ≤ x0 then (1, 0, 0, 1, 0, 1)
    else (0, 0, 1, 1, 0, 1)
  else
    if y0 < z0 then (0, 0, 1, 0, 1, 1)
    else if x0 < z0 then (0, 1, 0, 0, 1, 1)
    else (0, 1, 0, 1, 1, 0)

/-- The corner-summing tail of `noise3D` (source lines 133–163): the four
corner contributions `n0..n3`, summed and scaled by 32.  `none` if any
table read is out of bounds. -/
def noise3Dcore (S : SimplexNoise) (ii jj kk : ℤ) (o : ℤ × ℤ × ℤ × ℤ × ℤ × ℤ)
    (x0 y0 z0 x1 y1 z1 x2 y2 z2 x3 y3 z3 : ℚ) : Option ℚ := do
  let n0 ← corner S ii jj kk 0 0 0 x0 y0 z0
  let n1 ← corner S ii jj kk o.1 o.2.1 o.2.2.1 x1 y1 z1
  let n2 ← corner S ii jj kk o.2.2.2.1 o.2.2.2.2.1 o.2.2.2.2.2 x2 y2 z2
  let n3 ← corner S ii jj kk 1 1 1 x3 y3 z3
  return 32 * (n0 + n1 + n2 + n3)

/-- Function `noise3D` from the source: skew into simplex space, pick the simplex by
coordinate ordering (`simplexOffsets`), sum the four corner contributions,
scale by 32 (`noise3Dcore`).  `i & 255` on a JavaScript number is the
int32 conversion followed by the mask, which for every integer equals the
nonnegative remainder `emod 256`. -/
def noise3D (S : SimplexNoise) (x y z : ℚ) : Option ℚ :=
  let F3 : ℚ := 1/3
  let G3 : ℚ := 1/6
  let s := (x + y + z) * F3
  let i : ℤ := ⌊x + s⌋
  let j : ℤ := ⌊y + s⌋
  let k : ℤ := ⌊z + s⌋
  let t := ((i + j + k : ℤ) : ℚ) * G3
  let X0 := (i : ℚ) - t
  let Y0 := (j : ℚ) - t
  let Z0 := (k : ℚ) - t
  let x0 := x - X0
  let y0 := y - Y0
  let z0 := z - Z0
  let o := simplexOffsets x0 y0 z0
  let x1 := x0 - (o.1 : ℚ) + G3
  let y1 := y0 - (o.2.1 : ℚ) + G3
  let z1 := z0 - (o.2.2.1 : ℚ) + G3
  let x2 := x0 - (o.2.2.2.1 : ℚ) + 2 * G3
  let y2 := y0 - (o.2.2.2.2.1 : ℚ) + 2 * G3
  let z2 := z0 - (o.2.2.2.2.2 : ℚ) + 2 * G3
  let x3 := x0 - 1 + 3 * G3
  let y3 := y0 - 1 + 3 * G3
  let z3 := z0 - 1 + 3 * G3
  let ii := i % 256
  let jj := j % 256
  let kk := k % 256
  noise3Dcore S ii jj kk o x0 y0 z0 x1 y1 z1 x2 y2 z2 x3 y3 z3

/-- The audio-feature state held by a flow-field instance: the exponentially
smoothed band values (`smoothedAudio`), the fast-smoothed instant values,
`prevBass`, `beatCooldown` and `beatFlash`. -/
structure AudioState (α : Type) where
  bass : α
  mid : α
  treble : α
  energy : α
  instantBass : α
  instantTreble : α
  prevBass : α
  beatCooldown : ℕ
  beatFlash : α
  deriving DecidableEq

variable {α : Type} [LinearOrderedField α]

/-- Sum of `f[lo] + … + f[hi-1]`, stopping at the end of the list — the
source pattern `for (i = lo; i < Math.min(hi, len); i++) sum += f[i]`. -/
def sumRange (f : List α) (lo hi : ℕ) : α :=
  ((f.take hi).drop lo).sum

/-- The audio-feature block of `render` (source lines 269–307): band sums,
raw band means, exponential smoothing with `SMOOTHING = 0.25`, instant
values with `FAST_SMOOTHING = 0.4`, beat detection
(`rawBass > prevBass + 25 && beatCooldown <= 0`), cooldown reset to 8 and
decrement, `beatFlash` decay by `0.85`. Returns the new state and `isBeat`.
For an empty frame the source computes `totalSum / 0` (`NaN` in
JavaScript); the field model returns `0` for that division, so no theorem
below relies on the `energy` component of the empty-frame case. -/
def audioStep (freq : List α) (a : AudioState α) : AudioState α × Bool :=
  let len := freq.length
  let bassSum := sumRange freq 0 11
  let midSum := sumRange freq 20 61
  let trebleSum := sumRange freq 80 121
  let totalSum := freq.sum
  let rawBass := bassSum / 11
  let rawMid := midSum / 41
  let rawTreble := trebleSum / 41
  let rawEnergy := totalSum / (len : α)
  let bass' := a.bass + (rawBass - a.bass) * (1/4)
  let mid' := a.mid + (rawMid - a.mid) * (1/4)
  let treble' := a.treble + (rawTreble - a.treble) * (1/4)
  let energy' := a.energy + (rawEnergy - a.energy) * (1/4)
  let instantBass' := a.instantBass + (rawBass / 255 - a.instantBass) * (2/5)
  let instantTreble' := a.instantTreble + (rawTreble / 255 - a.instantTreble) * (2/5)
  let isBeat : Bool := if a.prevBass + 25 < rawBass ∧ a.beatCooldown = 0 then true else false
  let cd1 : ℕ := if isBeat then 8 else a.beatCooldown
  let flash1 : α := if isBeat then 1 else a.beatFlash
  let cd2 : ℕ := if 0 < cd1 then cd1 - 1 else cd1
  let flash2 := flash1 * (85/100)
  ({ bass := bass', mid := mid', treble := treble', energy := energy'
   , instantBass := instantBass', instantTreble := instantTreble'
   , prevBass := rawBass, beatCooldown := cd2, beatFlash := flash2 }, isBeat)

/-- The `isBeat` values produced by feeding a list of frames through
`audioStep`, threading the state. -/
def beatList (a : AudioState α) : List (List α) → List Bool
  | [] => []
  | f :: fs =>
      let r := audioStep f a
      r.2 :: beatList r.1 fs

/-- The boundary handling of `render` (source lines 383–386) applied to one
coordinate: `if (x < 0) x = bound; if (x > bound) x = 0;` — the second test
sees the result of the first. -/
def wrapPos (bound x : α) : α :=
  let x1 := if x < 0 then bound else x
  if bound < x1 then 0 else x1

/-- The two central differences of `getCurlNoise` (source lines 211–220):
`dx = (N(x, y+ε) − N(x, y−ε)) / 2ε` and `dy = (N(x+ε, y) − N(x−ε, y)) / 2ε`
with `ε = 0.0001`, where `noise3` stands for the instance's
`noise.noise3D`. -/
noncomputable def curlDiffs (noise3 : ℝ → ℝ → ℝ → ℝ) (x y t scale : ℝ) : ℝ × ℝ :=
  let eps : ℝ := 1/10000
  let n1 := noise3 (x * scale) ((y + eps) * scale) t
  let n2 := noise3 (x * scale) ((y - eps) * scale) t
  let n3 := noise3 ((x + eps) * scale) (y * scale) t
  let n4 := noise3 ((x - eps) * scale) (y * scale) t
  ((n1 - n2) / (2 * eps), (n3 - n4) / (2 * eps))

/-- The normalization denominator of `getCurlNoise`:
`Math.sqrt(dx*dx + dy*dy) || 1` — the gradient magnitude, replaced by `1`
exactly when it is `0`. -/
noncomputable def curlDenominator (noise3 : ℝ → ℝ → ℝ → ℝ) (x y t scale : ℝ) : ℝ :=
  let d := curlDiffs noise3 x y t scale
  let l := Real.sqrt (d.1 * d.1 + d.2 * d.2)
  if l = 0 then 1 else l

/-- Function `getCurlNoise` from the source: the rotated, normalized gradient
`(dy / len, −dx / len)`. -/
noncomputable def getCurlNoise (noise3 : ℝ → ℝ → ℝ → ℝ) (x y t scale : ℝ) : ℝ × ℝ :=
  let d := curlDiffs noise3 x y t scale
  let len := curlDenominator noise3 x y t scale
  (d.2 / len, -d.1 / len)

/-- A particle of the flow-field instance. -/
structure Particle where
  x : ℝ
  y : ℝ
  vx : ℝ
  vy : ℝ
  life : ℝ
  maxLife : ℝ
  size : ℝ
  hue : ℝ

/-- Stand-in for a JavaScript `undefined` array read in the aging loop;
its fields make the aging test `0 * 0.7 < 0` false, the branch JavaScript
also takes on `undefined`.  Never read when the random stream stays in
`[0,1)`. -/
def dummyParticle : Particle :=
  { x := 0, y := 0, vx := 0, vy := 0, life := 0, maxLife := 0, size := 0, hue := 0 }

/-- Function `respawnParticle` from the source.  `ρ` is the `Math.random()` stream
and `k` the cursor; the calls happen in source evaluation order (for the
burst branch: `angle`, `dist`, then the object fields `vx`, `vy`,
`maxLife`, `size`). -/
noncomputable def respawnParticle (ρ : ℕ → ℝ) (w h hue : ℝ) (burst : Bool) (k : ℕ) :
    Particle × ℕ :=
  if burst then
    let angle := ρ k * Real.pi * 2
    let dist := ρ (k + 1) * 100
    ({ x := w / 2 + Real.cos angle * dist
     , y := h / 2 + Real.sin angle * dist
     , vx := Real.cos angle * (ρ (k + 2) * 3 + 2)
     , vy := Real.sin angle * (ρ (k + 3) * 3 + 2)
     , life := 0
     , maxLife := ρ (k + 4) * 150 + 80
     , size := ρ (k + 5) * 3 + 2
     , hue := hue }, k + 6)
  else
    ({ x := ρ k * w
     , y := ρ (k + 1) * h
     , vx := 0
     , vy := 0
     , life := 0
     , maxLife := ρ (k + 2) * 200 + 100
     , size := ρ (k + 3) * 2 + 1
     , hue := hue }, k + 4)

/-- Loop `while (particles.length < targetCount) particles.push(respawnParticle(…))`,
with enough fuel to reach the target.  The source recomputes the constant
`centroidHue` expression inside the loop; it is passed in as `hue`. -/
noncomputable def growLoop (ρ : ℕ → ℝ) (w h hue target : ℝ) :
    ℕ → List Particle → ℕ → List Particle × ℕ
  | 0, ps, k => (ps, k)
  | fuel + 1, ps, k =>
      if (ps.length : ℝ) < target then
        let r := respawnParticle ρ w h hue false k
        growLoop ρ w h hue target fuel (ps ++ [r.1]) r.2
      else (ps, k)

/-- Loop `while (particles.length > targetCount) particles.pop()`.  With a
negative target the source loop never exits once the array is empty
(`[].pop()` leaves the length at 0); the fuel model returns in that case,
and no theorem below touches a negative target. -/
noncomputable def shrinkLoop (target : ℝ) : ℕ → List Particle → List Particle
  | 0, ps => ps
  | fuel + 1, ps =>
      if target < (ps.length : ℝ) then shrinkLoop target fuel ps.dropLast
      else ps

/-- JavaScript `particles[idx] = v`: in-place write for `idx < length`,
append for `idx = length` (the only out-of-range index reachable here,
arising when the array is empty and `idx = floor(random * 0) = 0`). -/
def setOrAppend (ps : List Particle) (idx : ℕ) (v : Particle) : List Particle :=
  if idx < ps.length then ps.set idx v else ps ++ [v]

/-- The beat-burst loop (source lines 338–345):
`for (i = 0; i < burstCount && length < targetCount + 50; i++)` replacing
`particles[floor(random * length)]` with a burst respawn. -/
noncomputable def burstLoop (ρ : ℕ → ℝ) (w h hue target : ℝ) :
    ℕ → List Particle → ℕ → List Particle × ℕ
  | 0, ps, k => (ps, k)
  | fuel + 1, ps, k =>
      if (ps.length : ℝ) < target + 50 then
        let idx := (⌊ρ k * (ps.length : ℝ)⌋).toNat
        let r := respawnParticle ρ w h hue true (k + 1)
        burstLoop ρ w h hue target fuel (setOrAppend ps idx r.1) r.2
      else (ps, k)

/-- The aging-respawn loop (source lines 347–353): `spawnRate` times, pick a
random slot and respawn it if `life > maxLife * 0.7`.  The `length > 0`
part of the loop condition is checked at the call site (the length never
changes inside). -/
noncomputable def spawnLoop (ρ : ℕ → ℝ) (w h hue : ℝ) :
    ℕ → List Particle → ℕ → List Particle × ℕ
  | 0, ps, k => (ps, k)
  | fuel + 1, ps, k =>
      let idx := (⌊ρ k * (ps.length : ℝ)⌋).toNat
      let p := ps.getD idx dummyParticle
      if p.maxLife * (7/10) < p.life then
        let r := respawnParticle ρ w h hue false (k + 1)
        spawnLoop ρ w h hue fuel (setOrAppend ps idx r.1) r.2
      else
        spawnLoop ρ w h hue fuel ps (k + 1)

/-- The per-frame scalars consumed by the integration loop. -/
structure TickCfg where
  time : ℝ
  noiseScaleEff : ℝ
  fieldStrengthEff : ℝ
  jitter : ℝ
  isBeat : Bool
  bassN : ℝ
  energyN : ℝ
  drag : ℝ
  centroidHue : ℝ
  width : ℝ
  height : ℝ

/-- The body of the main particle loop (source lines 355–392) for one
particle: curl force, treble jitter, beat impulse, drag, integration,
aging, toroidal edge handling, death respawn.  Drawing (lines 394–405) is
omitted — it writes no simulator state. -/
noncomputable def integrateParticle (ρ : ℕ → ℝ) (noise3 : ℝ → ℝ → ℝ → ℝ)
    (c : TickCfg) (p : Particle) (k : ℕ) : Particle × ℕ :=
  let curl := getCurlNoise noise3 p.x p.y c.time c.noiseScaleEff
  let vx1 := p.vx + curl.1 * c.fieldStrengthEff
  let vy1 := p.vy + curl.2 * c.fieldStrengthEff
  let s2 : ℝ × ℝ × ℕ :=
    if (1/10 : ℝ) < c.jitter then
      (vx1 + (ρ k - 1/2) * c.jitter, vy1 + (ρ (k + 1) - 1/2) * c.jitter, k + 2)
    else (vx1, vy1, k)
  let s3 : ℝ × ℝ × ℕ :=
    if c.isBeat then
      let impulse := 15 + c.bassN * 25
      (s2.1 + (ρ s2.2.2 - 1/2) * impulse, s2.2.1 + (ρ (s2.2.2 + 1) - 1/2) * impulse, s2.2.2 + 2)
    else s2
  let dd := c.drag - c.bassN * (3/100)
  let vx4 := s3.1 * dd
  let vy4 := s3.2.1 * dd
  let k4 := s3.2.2
  let x1 := p.x + vx4 * (1 + c.energyN * (1/2))
  let y1 := p.y + vy4 * (1 + c.energyN * (1/2))
  let life1 := p.life + 1
  let x2 := wrapPos c.width x1
  let y2 := wrapPos c.height y1
  if p.maxLife < life1 then
    respawnParticle ρ c.width c.height c.centroidHue false k4
  else
    ({ p with x := x2, y := y2, vx := vx4, vy := vy4, life := life1 }, k4)

/-- The main particle loop over the whole population, threading the random
cursor left to right. -/
noncomputable def integrateLoop (ρ : ℕ → ℝ) (noise3 : ℝ → ℝ → ℝ → ℝ) (c : TickCfg) :
    List Particle → ℕ → List Particle × ℕ
  | [], k => ([], k)
  | p :: ps, k =>
      let r := integrateParticle ρ noise3 c p k
      let rest := integrateLoop ρ noise3 c ps r.2
      (r.1 :: rest.1, rest.2)

/-- The parameters `render` reads from its `params` record with
`params.x as number || default`; a missing entry is `none`. -/
structure RenderParams where
  particleCount : Option ℝ
  fieldStrength : Option ℝ
  noiseScale : Option ℝ
  timeScale : Option ℝ
  drag : Option ℝ

/-- JavaScript `v || d` for a possibly missing numeric parameter: the
default replaces both a missing value and `0` (which is falsy). -/
def jsOr (v : Option α) (d : α) : α :=
  match v with
  | none => d
  | some x => if x = 0 then d else x

/-- The fields of the render context that the simulation reads. -/
structure RenderCtx where
  width : ℝ
  height : ℝ
  deltaTime : ℝ

/-- The fields of the audio frame that the simulation reads. -/
structure AudioFrameData where
  frequencyData : List ℝ
  peakFrequency : ℝ

/-- The mutable instance state of the flow-field plugin. -/
structure FlowState where
  particles : List Particle
  time : ℝ
  audio : AudioState ℝ

/-- The population-resize phase of `render` (source lines 330–353): grow to
the target, truncate above it, on a beat replace up to `burstCount` random
slots with burst respawns, then try `spawnRate` random slots for aging
respawns (skipped entirely when the population is empty).  `burstCount` is
a pure computation the source performs inside the beat branch; it is
passed in precomputed. -/
noncomputable def resizePhase (ρ : ℕ → ℝ) (w h hue target : ℝ) (isBeat : Bool)
    (burstCount spawnRate : ℕ) (ps : List Particle) (k : ℕ) : List Particle × ℕ :=
  let g := growLoop ρ w h hue target (⌈target⌉.toNat) ps k
  let ps1 := shrinkLoop target g.1.length g.1
  let b := if isBeat then burstLoop ρ w h hue target burstCount ps1 g.2 else (ps1, g.2)
  if 0 < b.1.length then spawnLoop ρ w h hue spawnRate b.1 b.2 else b

/-- One `render` call (one tick), with canvas drawing omitted: parameter
reads with `||` defaults, the audio-feature block, the simulation clock,
population resize toward the target, beat burst, aging respawns, and the
main integration loop.  `noise3` is the instance's noise field and `ρ`/`k`
the `Math.random()` stream and cursor.  The glow and sparkle passes only
draw (and advance the random stream, which the arbitrary-stream
quantification absorbs), so they are not modelled. -/
noncomputable def render (noise3 : ℝ → ℝ → ℝ → ℝ) (ρ : ℕ → ℝ) (ctx : RenderCtx)
    (audio : AudioFrameData) (params : RenderParams) (st : FlowState) (k : ℕ) :
    FlowState × ℕ :=
  let width := ctx.width
  let height := ctx.height
  let targetCount := jsOr params.particleCount 800
  let baseFieldStrength := jsOr params.fieldStrength 1
  let baseNoiseScale := jsOr params.noiseScale (3/1000)
  let timeScale := jsOr params.timeScale (1/2)
  let drag := jsOr params.drag (97/100)
  let freq := audio.frequencyData
  let len := freq.length
  let r := audioStep freq st.audio
  let a := r.1
  let isBeat := r.2
  let bassN := a.bass / 255
  let midN := a.mid / 255
  let trebleN := a.treble / 255
  let energyN := a.energy / 255
  let fieldStrengthEff := baseFieldStrength * (3/10 + bassN * 4 + a.instantBass * 2)
  let noiseScaleEff := baseNoiseScale * (3/10 + midN * 3)
  let jitter := trebleN * 6 + a.instantTreble * 4
  let time' := st.time + ctx.deltaTime * timeScale * (1/1000) * (1 + midN * 2)
  let spawnRate := (⌊(2 : ℝ) + energyN * 15 + (if isBeat then (30 : ℝ) else 0)⌋).toNat
  let centroidHue := audio.peakFrequency / (len : ℝ) * 360
  let burstCount := (⌊(20 : ℝ) + bassN * 40⌋).toNat
  let s := resizePhase ρ width height centroidHue targetCount isBeat burstCount spawnRate
    st.particles k
  let c : TickCfg :=
    { time := time', noiseScaleEff := noiseScaleEff, fieldStrengthEff := fieldStrengthEff
    , jitter := jitter, isBeat := isBeat, bassN := bassN, energyN := energyN
    , drag := drag, centroidHue := centroidHue, width := width, height := height }
  let fin := integrateLoop ρ noise3 c s.1 s.2
  ({ particles := fin.1, time := time', audio := a }, fin.2)

/-- The property the specification asserts of the constructed 256-entry
table: it is a shuffled arrangement of `0..255`, every value appearing
exactly once. -/
def isShuffledRange256 (l : List ℤ) : Prop :=
  ∀ v : ℤ, 0 ≤ v → v < 256 → l.count v = 1

/-- Unfolding helper for `getCurlNoise`. -/
theorem getCurlNoise_eq (noise3 : ℝ → ℝ → ℝ → ℝ) (x y t scale : ℝ) :
    getCurlNoise noise3 x y t scale =
      ((curlDiffs noise3 x y t scale).2 / curlDenominator noise3 x y t scale,
       -(curlDiffs noise3 x y t scale).1 / curlDenominator noise3 x y t scale) := by
  simp only [getCurlNoise]

/-- Claim C8 (amended): a particle leaving the bounds on an axis reappears
exactly on the opposite edge that tick (never clamped to the same edge,
never bounced), the result always lies inside `[0, bound]`, and for an exit
below zero the jump from the integrated position is the full bound plus the
overshoot. -/
theorem wrapPos_opposite_edge (bound x : ℚ) (hb : 0 < bound) :
    (x < 0 → wrapPos bound x = bound ∧ |wrapPos bound x - x| = bound - x) ∧
    (bound < x → wrapPos bound x = 0) ∧
    (0 ≤ x → x ≤ bound → wrapPos bound x = x) ∧
    0 ≤ wrapPos bound x ∧ wrapPos bound x ≤ bound := by
  rcases lt_or_le x 0 with hx0 | hx0
  · have hw : wrapPos bound x = bound := by
      simp only [wrapPos, if_pos hx0, if_neg (lt_irrefl bound)]
    refine ⟨fun _ => ⟨hw, ?_⟩, fun hbx => absurd hbx (by linarith),
      fun h0 _ => absurd h0 (by linarith), by rw [hw]; linarith, by rw [hw]⟩
    rw [hw, abs_of_nonneg (by linarith : (0 : ℚ) ≤ bound - x)]
  · rcases le_or_lt x bound with hxb | hxb
    · have hw : wrapPos bound x = x := by
        simp only [wrapPos, if_neg (not_lt.mpr hx0), if_neg (not_lt.mpr hxb)]
      exact ⟨fun hx => absurd hx (by linarith), fun hbx => absurd hbx (by linarith),
        fun _ _ => hw, by rw [hw]; linarith, by rw [hw]; linarith⟩
    · have hw : wrapPos bound x = 0 := by
        simp only [wrapPos, if_neg (not_lt.mpr hx0), if_pos hxb]
      exact ⟨fun hx => absurd hx (by linarith), fun _ => hw,
        fun _ hxb' => absurd hxb (by linarith), by rw [hw], by rw [hw]; linarith⟩

/-- Claim C8 (counterexample): at `bound = 100` an integrated position of
`-5` is wrapped to `100`, a jump of `105`, exceeding one bound-width. -/
theorem wrapPos_discontinuity_exceeds_bound :
    ¬ (|wrapPos (100 : ℚ) (-5) - (-5)| ≤ 100) := by
  have hw : wrapPos (100 : ℚ) (-5) = 100 := by norm_num [wrapPos]
  rw [hw]
  norm_num

/-- Witness for `wrapPos_opposite_edge` at `bound = 100`, `x = -5`. -/
theorem wrapPos_opposite_edge_witness :
    (0 : ℚ) < 100 ∧ wrapPos (100 : ℚ) (-5) = 100 :=
  ⟨by norm_num, ((wrapPos_opposite_edge 100 (-5) (by norm_num)).1 (by norm_num)).1⟩

/-- Claim C3 (amended): on a zero-length frequency frame the band sums are
empty, so the raw bass/mid/treble means are `0` and each smoothed band
value decays to three quarters of its previous value instead of being
returned unchanged; the overall-energy mean divides the empty sum by the
zero frame length. -/
theorem audioStep_empty_frame_decays (a : AudioState ℚ) :
    ((audioStep ([] : List ℚ) a).1).bass = a.bass * (3/4) ∧
    ((audioStep ([] : List ℚ) a).1).mid = a.mid * (3/4) ∧
    ((audioStep ([] : List ℚ) a).1).treble = a.treble * (3/4) := by
  refine ⟨?_, ?_, ?_⟩ <;> (simp [audioStep, sumRange]; ring)

/-- Claim C3 (counterexample): a zero-length frame does not leave the
smoothed state unchanged — from smoothed values `100` the state moves. -/
theorem audioStep_empty_frame_changes_state :
    (audioStep ([] : List ℚ) ⟨100, 100, 100, 100, 0, 0, 0, 0, 0⟩).1 ≠
      ⟨100, 100, 100, 100, 0, 0, 0, 0, 0⟩ := by
  intro h
  have hb := congrArg AudioState.bass h
  simp [audioStep, sumRange] at hb
  try norm_num at hb

/-- A beat cannot fire while the cooldown counter is nonzero. -/
theorem audioStep_beat_false {a : AudioState ℚ} (h : a.beatCooldown ≠ 0) (f : List ℚ) :
    (audioStep f a).2 = false := by
  simp [audioStep, h]

/-- With a nonzero cooldown (hence no beat), the cooldown decrements. -/
theorem audioStep_cooldown_dec {a : AudioState ℚ} (h : a.beatCooldown ≠ 0) (f : List ℚ) :
    ((audioStep f a).1).beatCooldown = a.beatCooldown - 1 := by
  simp [audioStep, h, Nat.pos_of_ne_zero h]

/-- After a frame on which the beat fired, the cooldown is 7 (set to 8 and
decremented on the same frame). -/
theorem audioStep_beat_cooldown {a : AudioState ℚ} {f : List ℚ}
    (h : (audioStep f a).2 = true) :
    ((audioStep f a).1).beatCooldown = 7 := by
  by_cases hc : a.prevBass + 25 < sumRange f 0 11 / 11 ∧ a.beatCooldown = 0
  · simp [audioStep, hc]
  · simp [audioStep, hc] at h

/-- No beat can appear at a position below the current cooldown value. -/
theorem beatList_no_beat_under_cooldown :
    ∀ (fs : List (List ℚ)) (a : AudioState ℚ) (i : ℕ), i < a.beatCooldown →
      ¬ ((beatList a fs).get? i = some true)
  | [], _, i, _ => by simp [beatList]
  | f :: fs, a, 0, h => by
      have hb : (audioStep f a).2 = false :=
        audioStep_beat_false (by omega) f
      simp [beatList, hb]
  | f :: fs, a, i + 1, h => by
      have hcd : a.beatCooldown ≠ 0 := by omega
      have : i < ((audioStep f a).1).beatCooldown := by
        rw [audioStep_cooldown_dec hcd f]; omega
      simpa [beatList] using beatList_no_beat_under_cooldown fs ((audioStep f a).1) i this

/-- Claim C4: for every input sequence of frames and every starting state,
the beat flag is true on at most one frame in any window of 8 consecutive
frames — after a beat the cooldown of 7 remaining frames blocks any
further beat. -/
theorem beat_cooldown_window :
    ∀ (frames : List (List ℚ)) (a : AudioState ℚ) (i j : ℕ),
      (beatList a frames).get? i = some true → i < j → j ≤ i + 7 →
      ¬ ((beatList a frames).get? j = some true)
  | [], _, i, _, hi, _, _ => by simp [beatList] at hi
  | f :: fs, a, 0, j, hi, hij, hj => by
      have hb : (audioStep f a).2 = true := by
        simpa [beatList] using hi
      obtain ⟨j', rfl⟩ : ∃ j', j = j' + 1 := ⟨j - 1, by omega⟩
      have hcd : j' < ((audioStep f a).1).beatCooldown := by
        rw [audioStep_beat_cooldown hb]; omega
      simpa [beatList] using
        beatList_no_beat_under_cooldown fs ((audioStep f a).1) j' hcd
  | f :: fs, a, i + 1, j, hi, hij, hj => by
      obtain ⟨j', rfl⟩ : ∃ j', j = j' + 1 := ⟨j - 1, by omega⟩
      have hi' : (beatList ((audioStep f a).1) fs).get? i = some true := by
        simpa [beatList] using hi
      simpa [beatList] using
        beat_cooldown_window fs ((audioStep f a).1) i j' hi' (by omega) (by omega)

/-- Witness for `beat_cooldown_window`: a full-scale bass frame fires a
beat on frame 0 and the next frame cannot beat. -/
theorem beat_cooldown_window_witness :
    (beatList (⟨0, 0, 0, 0, 0, 0, 0, 0, 0⟩ : AudioState ℚ)
        [List.replicate 11 255, List.replicate 11 255]).get? 0 = some true ∧
    ¬ ((beatList (⟨0, 0, 0, 0, 0, 0, 0, 0, 0⟩ : AudioState ℚ)
        [List.replicate 11 255, List.replicate 11 255]).get? 1 = some true) :=
  ⟨by simp [beatList, audioStep, sumRange]; norm_num,
   beat_cooldown_window _ _ 0 1 (by simp [beatList, audioStep, sumRange]; norm_num)
     (by norm_num) (by norm_num)⟩

/-- Claim C5 (amended): when both central differences vanish the curl is
the exact zero vector (the `|| 1` guard makes the denominator 1 there),
and the denominator is always strictly positive, so the division is always
defined; the denominator is not floored at 1 in general — it equals the
gradient magnitude whenever that magnitude is nonzero. -/
theorem getCurlNoise_zero_gradient (noise3 : ℝ → ℝ → ℝ → ℝ) (x y t scale : ℝ) :
    (curlDiffs noise3 x y t scale = (0, 0) → getCurlNoise noise3 x y t scale = (0, 0)) ∧
    0 < curlDenominator noise3 x y t scale := by
  constructor
  · intro h
    rw [getCurlNoise_eq, h]
    simp
  · simp only [curlDenominator]
    by_cases h : Real.sqrt ((curlDiffs noise3 x y t scale).1 * (curlDiffs noise3 x y t scale).1 +
        (curlDiffs noise3 x y t scale).2 * (curlDiffs noise3 x y t scale).2) = 0
    · rw [if_pos h]; norm_num
    · rw [if_neg h]
      exact lt_of_le_of_ne (Real.sqrt_nonneg _) (Ne.symm h)

/-- Claim C5 (counterexample): the normalization denominator is not floored
at `1.0` — with the noise field `N(a,b,c) = b` and `scale = 1/2` the
denominator is the gradient magnitude `1/2 < 1`. -/
theorem curlDenominator_not_floored :
    ¬ (1 ≤ curlDenominator (fun _ b _ => b) 0 0 0 (1/2)) := by
  have h : curlDiffs (fun _ b _ => b) 0 0 0 (1/2) = (1/2, 0) := by
    unfold curlDiffs
    norm_num
  have h2 : curlDenominator (fun _ b _ => b) 0 0 0 (1/2) = 1/2 := by
    simp only [curlDenominator, h]
    rw [show ((1/2 : ℝ) * (1/2) + (0 : ℝ) * 0) = (1/2)^2 by ring]
    rw [Real.sqrt_sq (by norm_num : (0:ℝ) ≤ (1/2 : ℝ))]
    norm_num
  rw [h2]
  norm_num

/-- Witness for `getCurlNoise_zero_gradient` on the constant-zero noise
field, whose central differences vanish everywhere. -/
theorem getCurlNoise_zero_gradient_witness :
    curlDiffs (fun _ _ _ => (0 : ℝ)) 0 0 0 0 = (0, 0) ∧
    getCurlNoise (fun _ _ _ => (0 : ℝ)) 0 0 0 0 = (0, 0) := by
  have h : curlDiffs (fun _ _ _ => (0 : ℝ)) 0 0 0 0 = (0, 0) := by
    unfold curlDiffs
    norm_num
  exact ⟨h, (getCurlNoise_zero_gradient _ 0 0 0 0).1 h⟩

/-- Claim C10: the curl vector always has squared norm at most 1 — it is
the zero vector when both central differences vanish and an exactly
unit-length vector otherwise. -/
theorem getCurlNoise_norm_le_one (noise3 : ℝ → ℝ → ℝ → ℝ) (x y t scale : ℝ) :
    (getCurlNoise noise3 x y t scale).1 ^ 2 + (getCurlNoise noise3 x y t scale).2 ^ 2 ≤ 1 ∧
    (curlDiffs noise3 x y t scale ≠ (0, 0) →
      (getCurlNoise noise3 x y t scale).1 ^ 2 + (getCurlNoise noise3 x y t scale).2 ^ 2 = 1) := by
  by_cases hd : curlDiffs noise3 x y t scale = (0, 0)
  · constructor
    · rw [getCurlNoise_eq, hd]
      norm_num
    · intro h
      exact absurd hd h
  · have h12 : (curlDiffs noise3 x y t scale).1 ≠ 0 ∨ (curlDiffs noise3 x y t scale).2 ≠ 0 := by
      by_contra hcon
      push_neg at hcon
      exact hd (Prod.ext_iff.mpr ⟨hcon.1, hcon.2⟩)
    have hpos : 0 < (curlDiffs noise3 x y t scale).1 * (curlDiffs noise3 x y t scale).1 +
        (curlDiffs noise3 x y t scale).2 * (curlDiffs noise3 x y t scale).2 := by
      rcases h12 with h1 | h2
      · nlinarith [mul_self_pos.mpr h1, mul_self_nonneg (curlDiffs noise3 x y t scale).2]
      · nlinarith [mul_self_pos.mpr h2, mul_self_nonneg (curlDiffs noise3 x y t scale).1]
    have hsq : Real.sqrt ((curlDiffs noise3 x y t scale).1 * (curlDiffs noise3 x y t scale).1 +
        (curlDiffs noise3 x y t scale).2 * (curlDiffs noise3 x y t scale).2) ≠ 0 :=
      ne_of_gt (Real.sqrt_pos.mpr hpos)
    have hden : curlDenominator noise3 x y t scale =
        Real.sqrt ((curlDiffs noise3 x y t scale).1 * (curlDiffs noise3 x y t scale).1 +
          (curlDiffs noise3 x y t scale).2 * (curlDiffs noise3 x y t scale).2) := by
      simp only [curlDenominator]
      rw [if_neg hsq]
    have hs2 : (curlDenominator noise3 x y t scale) ^ 2 =
        (curlDiffs noise3 x y t scale).1 * (curlDiffs noise3 x y t scale).1 +
          (curlDiffs noise3 x y t scale).2 * (curlDiffs noise3 x y t scale).2 := by
      rw [hden]
      exact Real.sq_sqrt hpos.le
    have hne : curlDenominator noise3 x y t scale ≠ 0 := by
      rw [hden]; exact hsq
    have key : (getCurlNoise noise3 x y t scale).1 ^ 2 +
        (getCurlNoise noise3 x y t scale).2 ^ 2 = 1 := by
      rw [getCurlNoise_eq]
      have expand : ((curlDiffs noise3 x y t scale).2 / curlDenominator noise3 x y t scale) ^ 2 +
          (-(curlDiffs noise3 x y t scale).1 / curlDenominator noise3 x y t scale) ^ 2 =
          ((curlDiffs noise3 x y t scale).1 * (curlDiffs noise3 x y t scale).1 +
            (curlDiffs noise3 x y t scale).2 * (curlDiffs noise3 x y t scale).2) /
            (curlDenominator noise3 x y t scale) ^ 2 := by
        field_simp
        ring
      rw [expand, hs2, div_self (ne_of_gt hpos)]
    exact ⟨le_of_eq key, fun _ => key⟩

/-- Witness for `getCurlNoise_norm_le_one`: for `N(a,b,c) = b` at
`scale = 1` the differences are `(1,0)` and the curl is exactly unit
length. -/
theorem getCurlNoise_norm_le_one_witness :
    curlDiffs (fun _ b _ => b) 0 0 0 1 ≠ (0, 0) ∧
    (getCurlNoise (fun _ b _ => b) 0 0 0 1).1 ^ 2 +
      (getCurlNoise (fun _ b _ => b) 0 0 0 1).2 ^ 2 = 1 := by
  have h : curlDiffs (fun _ b _ => b) 0 0 0 1 = (1, 0) := by
    unfold curlDiffs
    norm_num
  refine ⟨by rw [h]; simp, (getCurlNoise_norm_le_one _ 0 0 0 1).2 (by rw [h]; simp)⟩

/-- Claim C6: the noise generator is deterministic in its seed — the
constructor and `noise3D` are translated by pure functions of the seed
alone (the seeded linear-congruential stream is the only source of
pseudo-randomness, and sampling mutates nothing), so two instances built
from equal seeds agree on every sample and repeated calls agree. -/
theorem noise3D_deterministic (s1 s2 : ℚ) (h : s1 = s2) (x y z : ℚ) :
    noise3D (SimplexNoise.ofSeed s1) x y z = noise3D (SimplexNoise.ofSeed s2) x y z := by
  rw [h]

/-- Witness for `noise3D_deterministic` at seed 0 and the origin. -/
theorem noise3D_deterministic_witness :
    (0 : ℚ) = 0 ∧
    noise3D (SimplexNoise.ofSeed 0) 0 0 0 = noise3D (SimplexNoise.ofSeed 0) 0 0 0 :=
  ⟨rfl, noise3D_deterministic 0 0 rfl 0 0 0⟩

/-- The seed stream is a fixed point at 0. -/
theorem lcgNext_zero : lcgNext 0 = 0 := by
  simp [lcgNext, jsMod, jsTrunc]

/-- From seed 0 the first constructor loop fills the table with zeros. -/
theorem buildP_zero : ∀ n : ℕ, buildP n 0 = (List.replicate n 0, 0)
  | 0 => rfl
  | n + 1 => by
      simp [buildP, lcgNext_zero, buildP_zero n, List.replicate_succ]

/-- Reading a replicated list with the replicated value as default always
yields that value. -/
theorem getD_replicate_self (x : ℤ) : ∀ (n i : ℕ), (List.replicate n x).getD i x = x
  | 0, _ => rfl
  | _ + 1, 0 => rfl
  | n + 1, i + 1 => getD_replicate_self x n i

/-- Writing the replicated value into a replicated list changes nothing. -/
theorem set_replicate_self (x : ℤ) : ∀ (n i : ℕ), (List.replicate n x).set i x = List.replicate n x
  | 0, _ => rfl
  | n + 1, 0 => rfl
  | n + 1, i + 1 => by
      simp only [List.replicate_succ, List.set]
      rw [set_replicate_self x n i]

/-- A shuffle step on an all-zero table with seed 0 is the identity. -/
theorem shuffleStep_zero (n i : ℕ) :
    shuffleStep (List.replicate n 0, 0) i = (List.replicate n 0, 0) := by
  simp only [shuffleStep, mul_zero, Int.floor_zero, Int.zero_tmod, Int.toNat_zero,
    getD_replicate_self, set_replicate_self, lcgNext_zero]

/-- The whole shuffle loop fixes an all-zero table with seed 0. -/
theorem shuffleLoop_zero :
    ∀ (fuel n : ℕ), shuffleLoop fuel (List.replicate n 0, 0) = (List.replicate n 0, 0)
  | 0, _ => rfl
  | m + 1, n => by
      have h1 : shuffleLoop (m + 1) (List.replicate n 0, 0) =
          shuffleLoop m (shuffleStep (List.replicate n 0, 0) (m + 1)) := rfl
      rw [h1, shuffleStep_zero, shuffleLoop_zero m]

/-- At seed 0 the constructed table is identically zero. -/
theorem permTable_zero : permTable 0 = List.replicate 256 0 := by
  unfold permTable
  rw [buildP_zero 256, shuffleLoop_zero 255]

/-- Claim C7 (counterexample): the table is not a shuffled 0..255 — at seed
0 every entry is `floor(0 * 256) = 0`, so the value 1 never appears. -/
theorem permTable_not_permutation : ¬ isShuffledRange256 (permTable 0) := by
  intro h
  have h1 := h 1 (by norm_num) (by norm_num)
  rw [permTable_zero] at h1
  rw [List.count_replicate] at h1
  norm_num at h1

/-- One LCG step keeps the seed inside `[0, 1)` and is there given by
`s * 16807 / 2147483647` (the remainder is the identity below the
modulus). -/
theorem lcgNext_range {s : ℚ} (h0 : 0 ≤ s) (h1 : s < 1) :
    0 ≤ lcgNext s ∧ lcgNext s < 1 := by
  have hb : s * 16807 < 2147483647 := by nlinarith
  have htr : jsTrunc (s * 16807 / 2147483647) = 0 := by
    rw [jsTrunc, if_pos (by positivity)]
    rw [Int.floor_eq_zero_iff, Set.mem_Ico]
    exact ⟨by positivity, by rw [div_lt_one (by norm_num)]; exact hb⟩
  have heq : lcgNext s = s * 16807 / 2147483647 := by
    unfold lcgNext jsMod
    rw [htr]
    push_cast
    ring
  rw [heq]
  exact ⟨by positivity, by rw [div_lt_one (by norm_num)]; exact hb⟩

/-- The first constructor loop from a seed in `[0,1)`: every entry is in
`0..255`, the table has the requested length, and the outgoing seed is
again in `[0,1)`. -/
theorem buildP_spec : ∀ (n : ℕ) {s : ℚ}, 0 ≤ s → s < 1 →
    (∀ v ∈ (buildP n s).1, 0 ≤ v ∧ v ≤ 255) ∧
    (buildP n s).1.length = n ∧ 0 ≤ (buildP n s).2 ∧ (buildP n s).2 < 1
  | 0, s, h0, h1 => by
      refine ⟨by simp [buildP], by simp [buildP], ?_, ?_⟩ <;> simpa [buildP]
  | n + 1, s, h0, h1 => by
      obtain ⟨hr0, hr1⟩ := lcgNext_range h0 h1
      obtain ⟨hmem, hlen, hs0, hs1⟩ := buildP_spec n hr0 hr1
      have he0 : (0 : ℤ) ≤ ⌊s * 256⌋ := by
        apply Int.le_floor.mpr
        push_cast
        positivity
      have he1 : ⌊s * 256⌋ ≤ 255 := by
        have h256 : ⌊s * 256⌋ < 256 := by
          apply Int.floor_lt.mpr
          push_cast
          nlinarith
        omega
      refine ⟨?_, ?_, ?_, ?_⟩
      · intro v hv
        simp only [buildP] at hv
        rcases List.mem_cons.mp hv with rfl | hv'
        · exact ⟨he0, he1⟩
        · exact hmem v hv'
      · simp [buildP, hlen]
      · simpa [buildP] using hs0
      · simpa [buildP] using hs1

/-- Setting an in-range value into a list of in-range values keeps every
member in range. -/
theorem mem_set_bounds {l : List ℤ} (h : ∀ v ∈ l, 0 ≤ v ∧ v ≤ 255) {a : ℤ}
    (ha : 0 ≤ a ∧ a ≤ 255) (i : ℕ) : ∀ v ∈ l.set i a, 0 ≤ v ∧ v ≤ 255 := by
  intro v hv
  rcases List.mem_or_eq_of_mem_set hv with h' | rfl
  · exact h v h'
  · exact ha

/-- A default read out of a list of in-range values with an in-range
default is in range. -/
theorem getD_bounds {l : List ℤ} (h : ∀ v ∈ l, 0 ≤ v ∧ v ≤ 255) {d : ℤ}
    (hd : 0 ≤ d ∧ d ≤ 255) (i : ℕ) : 0 ≤ l.getD i d ∧ l.getD i d ≤ 255 := by
  rw [List.getD_eq_getD_get?]
  rcases h' : l.get? i with _ | v
  · exact hd
  · exact h v (List.get?_mem h')

/-- A shuffle step preserves the entry bounds, the length and the seed
range. -/
theorem shuffleStep_spec {pr : List ℤ × ℚ} (hmem : ∀ v ∈ pr.1, 0 ≤ v ∧ v ≤ 255)
    (hlen : pr.1.length = 256) (hs0 : 0 ≤ pr.2) (hs1 : pr.2 < 1) (i : ℕ) :
    (∀ v ∈ (shuffleStep pr i).1, 0 ≤ v ∧ v ≤ 255) ∧
    (shuffleStep pr i).1.length = 256 ∧
    0 ≤ (shuffleStep pr i).2 ∧ (shuffleStep pr i).2 < 1 := by
  obtain ⟨h0', h1'⟩ := lcgNext_range hs0 hs1
  have hz : (0 : ℤ) ≤ 0 ∧ (0 : ℤ) ≤ 255 := by norm_num
  refine ⟨?_, ?_, h0', h1'⟩
  · simp only [shuffleStep]
    exact mem_set_bounds (mem_set_bounds hmem (getD_bounds hmem hz _) _)
      (getD_bounds hmem hz _) _
  · simp [shuffleStep, hlen]

/-- The shuffle loop preserves the entry bounds and the length. -/
theorem shuffleLoop_spec : ∀ (fuel : ℕ) {pr : List ℤ × ℚ},
    (∀ v ∈ pr.1, 0 ≤ v ∧ v ≤ 255) → pr.1.length = 256 → 0 ≤ pr.2 → pr.2 < 1 →
    (∀ v ∈ (shuffleLoop fuel pr).1, 0 ≤ v ∧ v ≤ 255) ∧ (shuffleLoop fuel pr).1.length = 256
  | 0, pr, hmem, hlen, _, _ => ⟨hmem, hlen⟩
  | n + 1, pr, hmem, hlen, hs0, hs1 => by
      obtain ⟨hm', hl', h0', h1'⟩ := shuffleStep_spec hmem hlen hs0 hs1 (n + 1)
      simpa [shuffleLoop] using shuffleLoop_spec n hm' hl' h0' h1'

/-- For a seed in `[0,1)` the constructed 256-entry table has every entry
in `0..255`. -/
theorem permTable_spec {seed : ℚ} (h0 : 0 ≤ seed) (h1 : seed < 1) :
    (∀ v ∈ permTable seed, 0 ≤ v ∧ v ≤ 255) ∧ (permTable seed).length = 256 := by
  obtain ⟨hmem, hlen, hs0, hs1⟩ := buildP_spec 256 h0 h1
  exact shuffleLoop_spec 255 hmem hlen hs0 hs1

/-- Claim C7 (amended): for the seeds construction supplies, the 256-entry
table holds values in `0..255` — but not necessarily each exactly once
(the initial fill is `floor(seed*256)` per slot, not `0..255`) — and it is
mirrored into the 512-entry lookup (`perm[i] = p[i & 255]`), which in turn
selects among the 12 fixed gradient directions via `perm[i] % 12`. -/
theorem permTable_entries_bounded (seed : ℚ) (h0 : 0 ≤ seed) (h1 : seed < 1) :
    (permTable seed).length = 256 ∧
    (∀ v ∈ permTable seed, 0 ≤ v ∧ v ≤ 255) ∧
    (∀ i < 512, ((SimplexNoise.ofSeed seed).perm)[i]? =
      some ((permTable seed).getD (i % 256) 0)) ∧
    (SimplexNoise.ofSeed seed).gradP =
      (SimplexNoise.ofSeed seed).perm.map (fun v => grad3.getD (v.tmod 12).toNat (0, 0, 0)) := by
  obtain ⟨hmem, hlen⟩ := permTable_spec h0 h1
  refine ⟨hlen, hmem, ?_, rfl⟩
  intro i hi
  simp only [SimplexNoise.ofSeed, List.getElem?_map, List.getElem?_range, hi, if_true,
    Option.map_some']

/-- Witness for `permTable_entries_bounded` at seed 0. -/
theorem permTable_entries_bounded_witness :
    (0 : ℚ) ≤ 0 ∧ (0 : ℚ) < 1 ∧ (permTable 0).length = 256 :=
  ⟨le_rfl, by norm_num, (permTable_entries_bounded 0 le_rfl (by norm_num)).1⟩

/-- The mirrored 512-entry lookup has length 512. -/
theorem ofSeed_perm_length (seed : ℚ) : (SimplexNoise.ofSeed seed).perm.length = 512 := by
  simp [SimplexNoise.ofSeed]

/-- The gradient lookup has length 512. -/
theorem ofSeed_gradP_length (seed : ℚ) : (SimplexNoise.ofSeed seed).gradP.length = 512 := by
  simp [SimplexNoise.ofSeed]

/-- For a seed in `[0,1)` every entry of the 512-entry lookup is in
`0..255`. -/
theorem ofSeed_perm_bounds {seed : ℚ} (h0 : 0 ≤ seed) (h1 : seed < 1) :
    ∀ v ∈ (SimplexNoise.ofSeed seed).perm, 0 ≤ v ∧ v ≤ 255 := by
  obtain ⟨hmem, _⟩ := permTable_spec h0 h1
  intro v hv
  simp only [SimplexNoise.ofSeed, List.mem_map] at hv
  obtain ⟨i, _, rfl⟩ := hv
  exact getD_bounds hmem (by norm_num) _

/-- A 512-entry list can be read at every integer index in `[0, 512)`, and
the value read is a member. -/
theorem getAt?_isSome {β : Type} {l : List β} (hlen : l.length = 512) {i : ℤ}
    (hi0 : 0 ≤ i) (hi1 : i < 512) : ∃ v, getAt? l i = some v ∧ v ∈ l := by
  have hlt : i.toNat < l.length := by omega
  refine ⟨l.get ⟨i.toNat, hlt⟩, ?_, List.get_mem l _ _⟩
  rw [getAt?, if_pos hi0]
  exact List.get?_eq_get hlt

/-- With in-range cell coordinates and offsets, a corner contribution never
reads out of bounds. -/
theorem corner_isSome {S : SimplexNoise} (hpl : S.perm.length = 512)
    (hpb : ∀ v ∈ S.perm, 0 ≤ v ∧ v ≤ 255) (hgl : S.gradP.length = 512)
    {ii jj kk di dj dk : ℤ}
    (hii0 : 0 ≤ ii) (hii1 : ii ≤ 255) (hjj0 : 0 ≤ jj) (hjj1 : jj ≤ 255)
    (hkk0 : 0 ≤ kk) (hkk1 : kk ≤ 255) (hdi0 : 0 ≤ di) (hdi1 : di ≤ 1)
    (hdj0 : 0 ≤ dj) (hdj1 : dj ≤ 1) (hdk0 : 0 ≤ dk) (hdk1 : dk ≤ 1)
    (xc yc zc : ℚ) : (corner S ii jj kk di dj dk xc yc zc).isSome := by
  simp only [corner]
  by_cases ht : (3/5 - xc * xc - yc * yc - zc * zc : ℚ) < 0
  · rw [if_pos ht]
    rfl
  · rw [if_neg ht]
    obtain ⟨a, ha, hamem⟩ := getAt?_isSome hpl (i := kk + dk) (by omega) (by omega)
    obtain ⟨ha0, ha1⟩ := hpb a hamem
    rw [ha]
    dsimp only
    obtain ⟨b, hb, hbmem⟩ := getAt?_isSome hpl (i := jj + dj + a) (by omega) (by omega)
    obtain ⟨hb0, hb1⟩ := hpb b hbmem
    rw [hb]
    dsimp only
    obtain ⟨g, hg, _⟩ := getAt?_isSome hgl (i := ii + di + b) (by omega) (by omega)
    rw [hg]
    rfl

/-- The simplex corner offsets are each 0 or 1. -/
theorem simplexOffsets_bounds (x0 y0 z0 : ℚ) :
    (0 ≤ (simplexOffsets x0 y0 z0).1 ∧ (simplexOffsets x0 y0 z0).1 ≤ 1) ∧
    (0 ≤ (simplexOffsets x0 y0 z0).2.1 ∧ (simplexOffsets x0 y0 z0).2.1 ≤ 1) ∧
    (0 ≤ (simplexOffsets x0 y0 z0).2.2.1 ∧ (simplexOffsets x0 y0 z0).2.2.1 ≤ 1) ∧
    (0 ≤ (simplexOffsets x0 y0 z0).2.2.2.1 ∧ (simplexOffsets x0 y0 z0).2.2.2.1 ≤ 1) ∧
    (0 ≤ (simplexOffsets x0 y0 z0).2.2.2.2.1 ∧ (simplexOffsets x0 y0 z0).2.2.2.2.1 ≤ 1) ∧
    (0 ≤ (simplexOffsets x0 y0 z0).2.2.2.2.2 ∧ (simplexOffsets x0 y0 z0).2.2.2.2.2 ≤ 1) := by
  unfold simplexOffsets
  split_ifs <;> norm_num

/-- With in-range cell coordinates and offsets, the corner-summing tail of
`noise3D` never reads out of bounds. -/
theorem noise3Dcore_isSome {S : SimplexNoise} (hpl : S.perm.length = 512)
    (hpb : ∀ v ∈ S.perm, 0 ≤ v ∧ v ≤ 255) (hgl : S.gradP.length = 512)
    {ii jj kk : ℤ}
    (hii0 : 0 ≤ ii) (hii1 : ii ≤ 255) (hjj0 : 0 ≤ jj) (hjj1 : jj ≤ 255)
    (hkk0 : 0 ≤ kk) (hkk1 : kk ≤ 255)
    {o : ℤ × ℤ × ℤ × ℤ × ℤ × ℤ}
    (ho : (0 ≤ o.1 ∧ o.1 ≤ 1) ∧ (0 ≤ o.2.1 ∧ o.2.1 ≤ 1) ∧
      (0 ≤ o.2.2.1 ∧ o.2.2.1 ≤ 1) ∧ (0 ≤ o.2.2.2.1 ∧ o.2.2.2.1 ≤ 1) ∧
      (0 ≤ o.2.2.2.2.1 ∧ o.2.2.2.2.1 ≤ 1) ∧ (0 ≤ o.2.2.2.2.2 ∧ o.2.2.2.2.2 ≤ 1))
    (x0 y0 z0 x1 y1 z1 x2 y2 z2 x3 y3 z3 : ℚ) :
    (noise3Dcore S ii jj kk o x0 y0 z0 x1 y1 z1 x2 y2 z2 x3 y3 z3).isSome := by
  obtain ⟨i1, j1, k1, i2, j2, k2⟩ := o
  obtain ⟨⟨hi10, hi11⟩, ⟨hj10, hj11⟩, ⟨hk10, hk11⟩, ⟨hi20, hi21⟩, ⟨hj20, hj21⟩,
    ⟨hk20, hk21⟩⟩ := ho
  simp only [noise3Dcore]
  obtain ⟨v0, hv0⟩ := Option.isSome_iff_exists.mp
    (corner_isSome hpl hpb hgl hii0 hii1 hjj0 hjj1 hkk0 hkk1
      le_rfl zero_le_one le_rfl zero_le_one le_rfl zero_le_one x0 y0 z0)
  obtain ⟨v1, hv1⟩ := Option.isSome_iff_exists.mp
    (corner_isSome hpl hpb hgl hii0 hii1 hjj0 hjj1 hkk0 hkk1
      hi10 hi11 hj10 hj11 hk10 hk11 x1 y1 z1)
  obtain ⟨v2, hv2⟩ := Option.isSome_iff_exists.mp
    (corner_isSome hpl hpb hgl hii0 hii1 hjj0 hjj1 hkk0 hkk1
      hi20 hi21 hj20 hj21 hk20 hk21 x2 y2 z2)
  obtain ⟨v3, hv3⟩ := Option.isSome_iff_exists.mp
    (corner_isSome hpl hpb hgl hii0 hii1 hjj0 hjj1 hkk0 hkk1
      zero_le_one le_rfl zero_le_one le_rfl zero_le_one le_rfl x3 y3 z3)
  simp [hv0, hv1, hv2, hv3]

/-- Claim C9: for every seed in `[0,1)` (the range construction supplies)
and all rational inputs, every table value is in `0..255` and `noise3D`
performs no out-of-bounds read: every lookup into the 512-entry `perm` and
`gradP` tables succeeds. -/
theorem noise3D_lookups_in_bounds (seed : ℚ) (h0 : 0 ≤ seed) (h1 : seed < 1) :
    (∀ v ∈ (SimplexNoise.ofSeed seed).perm, 0 ≤ v ∧ v ≤ 255) ∧
    ∀ x y z : ℚ, (noise3D (SimplexNoise.ofSeed seed) x y z).isSome := by
  have hpb := ofSeed_perm_bounds h0 h1
  refine ⟨hpb, ?_⟩
  intro x y z
  simp only [noise3D]
  apply noise3Dcore_isSome (ofSeed_perm_length seed) hpb (ofSeed_gradP_length seed)
  · omega
  · omega
  · omega
  · omega
  · omega
  · omega
  · exact simplexOffsets_bounds _ _ _

/-- Witness for `noise3D_lookups_in_bounds` at seed 0 and the origin. -/
theorem noise3D_lookups_in_bounds_witness :
    (0 : ℚ) ≤ 0 ∧ (0 : ℚ) < 1 ∧ (noise3D (SimplexNoise.ofSeed 0) 0 0 0).isSome :=
  ⟨le_rfl, by norm_num, (noise3D_lookups_in_bounds 0 le_rfl (by norm_num)).2 0 0 0⟩

/-- The grow loop, given enough fuel, stops exactly when the length first
reaches the target: the final length is `max` of the starting length and
the rounded-up target. -/
theorem growLoop_length (ρ : ℕ → ℝ) (w h hue target : ℝ) :
    ∀ (fuel : ℕ) (ps : List Particle) (k : ℕ),
      ⌈target⌉.toNat ≤ ps.length + fuel →
      ((growLoop ρ w h hue target fuel ps k).1).length = max ps.length ⌈target⌉.toNat
  | 0, ps, k, hfuel => by
      simp only [growLoop]
      show ps.length = max ps.length ⌈target⌉.toNat
      omega
  | fuel + 1, ps, k, hfuel => by
      simp only [growLoop]
      by_cases hlt : (ps.length : ℝ) < target
      · rw [if_pos hlt]
        have hceil : (ps.length : ℤ) < ⌈target⌉ := Int.lt_ceil.mpr (by exact_mod_cast hlt)
        have hrec := growLoop_length ρ w h hue target fuel
          (ps ++ [(respawnParticle ρ w h hue false k).1])
          (respawnParticle ρ w h hue false k).2
          (by rw [List.length_append, List.length_singleton]; omega)
        rw [hrec, List.length_append, List.length_singleton]
        omega
      · rw [if_neg hlt]
        have hle : ⌈target⌉ ≤ (ps.length : ℤ) := Int.ceil_le.mpr (by exact_mod_cast not_lt.mp hlt)
        show ps.length = max ps.length ⌈target⌉.toNat
        omega

/-- The shrink loop, given enough fuel, pops until the length no longer
exceeds the target: the final length is `min` of the starting length and
the rounded-down target. -/
theorem shrinkLoop_length (target : ℝ) :
    ∀ (fuel : ℕ) (ps : List Particle), ps.length ≤ fuel →
      (shrinkLoop target fuel ps).length = min ps.length ⌊target⌋.toNat
  | 0, ps, hf => by
      simp only [shrinkLoop]
      show ps.length = min ps.length ⌊target⌋.toNat
      omega
  | fuel + 1, ps, hf => by
      simp only [shrinkLoop]
      by_cases hlt : target < (ps.length : ℝ)
      · rw [if_pos hlt]
        have hfl : ⌊target⌋ < (ps.length : ℤ) := Int.floor_lt.mpr (by exact_mod_cast hlt)
        have hrec := shrinkLoop_length target fuel ps.dropLast
          (by rw [List.length_dropLast]; omega)
        rw [hrec, List.length_dropLast]
        omega
      · rw [if_neg hlt]
        have hle : (ps.length : ℤ) ≤ ⌊target⌋ := Int.le_floor.mpr (by exact_mod_cast not_lt.mp hlt)
        show ps.length = min ps.length ⌊target⌋.toNat
        omega

/-- An in-range JavaScript array write is an in-place update and keeps the
length. -/
theorem setOrAppend_length {ps : List Particle} {i : ℕ} (hi : i < ps.length) (v : Particle) :
    (setOrAppend ps i v).length = ps.length := by
  simp [setOrAppend, hi]

/-- Index `floor(random * length)` with `random ∈ [0,1)` lands strictly inside a
nonempty array. -/
theorem floor_rand_lt {u : ℝ} (_h0 : 0 ≤ u) (h1 : u < 1) {n : ℕ} (hn : 0 < n) :
    (⌊u * (n : ℝ)⌋).toNat < n := by
  have hpos : (0 : ℝ) < n := by exact_mod_cast hn
  have h2 : u * (n : ℝ) < n := by
    calc u * (n : ℝ) < 1 * n := mul_lt_mul_of_pos_right h1 hpos
    _ = n := one_mul _
  have h3 : ⌊u * (n : ℝ)⌋ < (n : ℤ) := Int.floor_lt.mpr (by exact_mod_cast h2)
  omega

/-- The beat-burst loop replaces slots in place: on a nonempty population
it never changes the length. -/
theorem burstLoop_length {ρ : ℕ → ℝ} (hρ : ∀ m, 0 ≤ ρ m ∧ ρ m < 1) (w h hue target : ℝ) :
    ∀ (fuel : ℕ) (ps : List Particle) (k : ℕ), 0 < ps.length →
      ((burstLoop ρ w h hue target fuel ps k).1).length = ps.length
  | 0, _, _, _ => rfl
  | fuel + 1, ps, k, hp => by
      simp only [burstLoop]
      by_cases hc : (ps.length : ℝ) < target + 50
      · rw [if_pos hc]
        have hidx : (⌊ρ k * (ps.length : ℝ)⌋).toNat < ps.length :=
          floor_rand_lt (hρ k).1 (hρ k).2 hp
        have hrec := burstLoop_length hρ w h hue target fuel
          (setOrAppend ps (⌊ρ k * (ps.length : ℝ)⌋).toNat
            (respawnParticle ρ w h hue true (k + 1)).1)
          (respawnParticle ρ w h hue true (k + 1)).2
          (by rw [setOrAppend_length hidx]; exact hp)
        rw [hrec, setOrAppend_length hidx]
      · rw [if_neg hc]

/-- The aging-respawn loop replaces slots in place: on a nonempty
population it never changes the length. -/
theorem spawnLoop_length {ρ : ℕ → ℝ} (hρ : ∀ m, 0 ≤ ρ m ∧ ρ m < 1) (w h hue : ℝ) :
    ∀ (fuel : ℕ) (ps : List Particle) (k : ℕ), 0 < ps.length →
      ((spawnLoop ρ w h hue fuel ps k).1).length = ps.length
  | 0, _, _, _ => rfl
  | fuel + 1, ps, k, hp => by
      simp only [spawnLoop]
      by_cases hc : (ps.getD (⌊ρ k * (ps.length : ℝ)⌋).toNat dummyParticle).maxLife * (7/10) <
          (ps.getD (⌊ρ k * (ps.length : ℝ)⌋).toNat dummyParticle).life
      · rw [if_pos hc]
        have hidx : (⌊ρ k * (ps.length : ℝ)⌋).toNat < ps.length :=
          floor_rand_lt (hρ k).1 (hρ k).2 hp
        have hrec := spawnLoop_length hρ w h hue fuel
          (setOrAppend ps (⌊ρ k * (ps.length : ℝ)⌋).toNat
            (respawnParticle ρ w h hue false (k + 1)).1)
          (respawnParticle ρ w h hue false (k + 1)).2
          (by rw [setOrAppend_length hidx]; exact hp)
        rw [hrec, setOrAppend_length hidx]
      · rw [if_neg hc]
        exact spawnLoop_length hρ w h hue fuel ps (k + 1) hp

/-- The main particle loop maps slot to slot: the length is unchanged. -/
theorem integrateLoop_length (ρ : ℕ → ℝ) (noise3 : ℝ → ℝ → ℝ → ℝ) (c : TickCfg) :
    ∀ (ps : List Particle) (k : ℕ),
      ((integrateLoop ρ noise3 c ps k).1).length = ps.length
  | [], _ => rfl
  | p :: ps, k => by
      simp only [integrateLoop, List.length_cons]
      rw [integrateLoop_length ρ noise3 c ps _]

/-- The resize phase lands the population length exactly on an integral
target `n ≥ 1`: the grow and shrink loops reach it, and the burst and
aging loops replace in place. -/
theorem resizePhase_length {ρ : ℕ → ℝ} (hρ : ∀ m, 0 ≤ ρ m ∧ ρ m < 1)
    (w h hue : ℝ) {target : ℝ} {n : ℕ} (hn : 1 ≤ n) (ht : target = (n : ℝ))
    (isBeat : Bool) (burstCount spawnRate : ℕ) (ps : List Particle) (k : ℕ) :
    ((resizePhase ρ w h hue target isBeat burstCount spawnRate ps k).1).length = n := by
  subst ht
  have hceil : (⌈((n : ℕ) : ℝ)⌉).toNat = n := by
    rw [Int.ceil_natCast]
    exact Int.toNat_natCast n
  have hfloor : (⌊((n : ℕ) : ℝ)⌋).toNat = n := by
    rw [Int.floor_natCast]
    exact Int.toNat_natCast n
  have hg : ((growLoop ρ w h hue ((n : ℕ) : ℝ) ((⌈((n : ℕ) : ℝ)⌉).toNat) ps k).1).length =
      max ps.length n := by
    rw [growLoop_length ρ w h hue _ _ ps k (by omega), hceil]
  have hs : (shrinkLoop ((n : ℕ) : ℝ)
      ((growLoop ρ w h hue ((n : ℕ) : ℝ) ((⌈((n : ℕ) : ℝ)⌉).toNat) ps k).1).length
      ((growLoop ρ w h hue ((n : ℕ) : ℝ) ((⌈((n : ℕ) : ℝ)⌉).toNat) ps k).1)).length = n := by
    rw [shrinkLoop_length _ _ _ le_rfl, hg, hfloor]
    omega
  simp only [resizePhase]
  cases isBeat with
  | false =>
      simp only [Bool.false_eq_true, if_false]
      rw [if_pos (by rw [hs]; omega)]
      rw [spawnLoop_length hρ w h hue _ _ _ (by rw [hs]; omega), hs]
  | true =>
      simp only [if_true]
      have hb : ((burstLoop ρ w h hue ((n : ℕ) : ℝ) burstCount
          (shrinkLoop ((n : ℕ) : ℝ)
            ((growLoop ρ w h hue ((n : ℕ) : ℝ) ((⌈((n : ℕ) : ℝ)⌉).toNat) ps k).1).length
            ((growLoop ρ w h hue ((n : ℕ) : ℝ) ((⌈((n : ℕ) : ℝ)⌉).toNat) ps k).1))
          ((growLoop ρ w h hue ((n : ℕ) : ℝ) ((⌈((n : ℕ) : ℝ)⌉).toNat) ps k).2)).1).length = n := by
        rw [burstLoop_length hρ w h hue _ _ _ _ (by rw [hs]; omega), hs]
      rw [if_pos (by rw [hb]; omega)]
      rw [spawnLoop_length hρ w h hue _ _ _ (by rw [hb]; omega), hb]

/-- After a tick whose effective target is the integer `n ≥ 1`, the
population has exactly `n` particles. -/
theorem render_length_eq (noise3 : ℝ → ℝ → ℝ → ℝ) {ρ : ℕ → ℝ}
    (hρ : ∀ m, 0 ≤ ρ m ∧ ρ m < 1) (ctx : RenderCtx) (audio : AudioFrameData)
    (params : RenderParams) (st : FlowState) (k : ℕ) {n : ℕ} (hn : 1 ≤ n)
    (ht : jsOr params.particleCount 800 = (n : ℝ)) :
    ((render noise3 ρ ctx audio params st k).1).particles.length = n := by
  simp only [render]
  rw [integrateLoop_length]
  exact resizePhase_length hρ _ _ _ hn ht _ _ _ _ _

/-- Claim C1 (amended): `particleCount = 0` is falsy, so the `|| 800`
default applies and a tick leaves 800 live particles, not an empty
population; no clamping of the target occurs anywhere (and for a strictly
negative target the source truncation loop never terminates once the array
is empty). -/
theorem render_zero_count_gives_default (noise3 : ℝ → ℝ → ℝ → ℝ) {ρ : ℕ → ℝ}
    (hρ : ∀ m, 0 ≤ ρ m ∧ ρ m < 1) (ctx : RenderCtx) (audio : AudioFrameData)
    (params : RenderParams) (st : FlowState) (k : ℕ)
    (hpc : params.particleCount = some 0) :
    ((render noise3 ρ ctx audio params st k).1).particles.length = 800 := by
  have ht : jsOr params.particleCount 800 = ((800 : ℕ) : ℝ) := by
    rw [hpc, jsOr]
    norm_num
  exact render_length_eq noise3 hρ ctx audio params st k (by norm_num) ht

/-- Claim C1 (counterexample): with `particleCount = 0` the population
after a tick is not empty — it has the default 800 particles. -/
theorem render_zero_count_not_empty :
    ¬ (((render (fun _ _ _ => 0) (fun _ => 1/2) ⟨100, 100, 16⟩ ⟨[], 0⟩
        ⟨some 0, none, none, none, none⟩ ⟨[], 0, ⟨0, 0, 0, 0, 0, 0, 0, 0, 0⟩⟩ 0).1).particles.length
      = 0) := by
  have h := render_length_eq (fun _ _ _ => (0 : ℝ)) (ρ := fun _ => 1/2)
    (fun m => by norm_num) ⟨100, 100, 16⟩ ⟨[], 0⟩ ⟨some 0, none, none, none, none⟩
    ⟨[], 0, ⟨0, 0, 0, 0, 0, 0, 0, 0, 0⟩⟩ 0 (n := 800) (by norm_num) (by simp [jsOr])
  rw [h]
  norm_num

/-- Witness for `render_zero_count_gives_default` on a concrete tick. -/
theorem render_zero_count_gives_default_witness :
    ((render (fun _ _ _ => 0) (fun _ => 1/2) ⟨100, 100, 16⟩ ⟨List.replicate 8 5, 2⟩
        ⟨some 0, none, none, none, none⟩ ⟨[], 0, ⟨1, 1, 1, 1, 0, 0, 0, 0, 0⟩⟩ 0).1).particles.length
      = 800 :=
  render_zero_count_gives_default (fun _ _ _ => 0) (fun m => by norm_num)
    ⟨100, 100, 16⟩ ⟨List.replicate 8 5, 2⟩ ⟨some 0, none, none, none, none⟩
    ⟨[], 0, ⟨1, 1, 1, 1, 0, 0, 0, 0, 0⟩⟩ 0 rfl

/-- Claim C2 (amended): for every integer target `N ≥ 1` (N = 0 falls to
the 800 default because 0 is a falsy parameter value), after any tick the
population length is exactly `N`: the tick grows by spawning below target,
truncates above it, and every death respawn and beat burst reinitializes a
slot in place without changing the length. -/
theorem render_population_matches_target (noise3 : ℝ → ℝ → ℝ → ℝ) {ρ : ℕ → ℝ}
    (hρ : ∀ m, 0 ≤ ρ m ∧ ρ m < 1) (ctx : RenderCtx) (audio : AudioFrameData)
    (params : RenderParams) (st : FlowState) (k : ℕ) {n : ℕ} (hn : 1 ≤ n)
    (hpc : params.particleCount = some ((n : ℕ) : ℝ)) :
    ((render noise3 ρ ctx audio params st k).1).particles.length = n := by
  have ht : jsOr params.particleCount 800 = ((n : ℕ) : ℝ) := by
    rw [hpc, jsOr]
    rw [if_neg]
    exact Nat.cast_ne_zero.mpr (by omega)
  exact render_length_eq noise3 hρ ctx audio params st k hn ht

/-- Claim C2 (counterexample): at `N = 0` the tick does not leave the
population at size 0 — the falsy parameter falls back to the default
800. -/
theorem render_population_target_zero_fails :
    ¬ (((render (fun _ _ _ => 0) (fun _ => 1/4) ⟨200, 200, 16⟩ ⟨List.replicate 4 10, 1⟩
        ⟨some 0, none, none, none, none⟩ ⟨[⟨1, 2, 0, 0, 0, 50, 1, 0⟩], 0,
          ⟨0, 0, 0, 0, 0, 0, 0, 0, 0⟩⟩ 0).1).particles.length = 0) := by
  have h := render_length_eq (fun _ _ _ => (0 : ℝ)) (ρ := fun _ => 1/4)
    (fun m => by norm_num) ⟨200, 200, 16⟩ ⟨List.replicate 4 10, 1⟩
    ⟨some 0, none, none, none, none⟩
    ⟨[⟨1, 2, 0, 0, 0, 50, 1, 0⟩], 0, ⟨0, 0, 0, 0, 0, 0, 0, 0, 0⟩⟩ 0 (n := 800)
    (by norm_num) (by simp [jsOr])
  rw [h]
  norm_num

/-- Witness for `render_population_matches_target` at target 3 on a
concrete tick. -/
theorem render_population_matches_target_witness :
    ((render (fun _ _ _ => 0) (fun _ => 1/2) ⟨100, 100, 16⟩ ⟨[], 0⟩
        ⟨some 3, none, none, none, none⟩ ⟨[], 0, ⟨0, 0, 0, 0, 0, 0, 0, 0, 0⟩⟩ 0).1).particles.length
      = 3 :=
  render_population_matches_target (fun _ _ _ => 0) (fun m => by norm_num)
    ⟨100, 100, 16⟩ ⟨[], 0⟩ ⟨some 3, none, none, none, none⟩
    ⟨[], 0, ⟨0, 0, 0, 0, 0, 0, 0, 0, 0⟩⟩ 0 (n := 3) (by norm_num) (by norm_num)

end FlowField
